import Mathlib

/-!
Verification of the sequence-detector program (`src/main.py`).

The program builds, for each binary pattern, a KMP-like deterministic
automaton as a transition table over states `{0, …, L}` and symbols
`'0'`/`'1'`, and drives one automaton per pattern over a live bit stream,
counting arrivals at the accept state `L`.

Patterns and streams are embedded as `List Char`, matching the Python
code's character-by-character processing.  Fallible operations (the
dictionary lookups and the `ValueError` raised by `step`) are embedded
with `Option` and `Except`.
-/

/-- Whitespace characters stripped by Python's `str.strip()` (ASCII part
relevant here): space, tab, newline, carriage return, vertical tab, form
feed. -/
def isPyWS (c : Char) : Bool :=
  c = ' ' || c = '\t' || c = '\n' || c = '\r' || c = '\x0b' || c = '\x0c'

/-- Embedding of `pattern.strip()` (line 5 of `main.py`): remove leading
and trailing whitespace. -/
def pyStrip (l : List Char) : List Char :=
  ((l.dropWhile isPyWS).reverse.dropWhile isPyWS).reverse

/-- The inner loop of `nxt` in `build_transitions` (lines 11–16): try
candidate lengths `k, k-1, …, 1`, returning the first `k` whose length-`k`
suffix of `temp` equals `seq[:k]`; at `0` the empty suffix always matches
the empty initial segment, so the loop returns `0`. -/
def nxtLoop (seq temp : List Char) : Nat → Nat
  | 0 => 0
  | k + 1 =>
    if temp.drop (temp.length - (k + 1)) = seq.take (k + 1) then k + 1
    else nxtLoop seq temp k

/-- Embedding of the helper `nxt(state_len, bit)` (lines 8–16 of
`main.py`): form `temp = seq[:state_len] + [bit]` and search candidate
lengths downward from `min(len(temp), plen)`. -/
def nxt (seq : List Char) (state_len : Nat) (bit : Char) : Nat :=
  let temp := seq.take state_len ++ [bit]
  nxtLoop seq temp (min temp.length seq.length)

/-- The transition table built by the loop at lines 18–20 of `main.py`:
one `(on '0', on '1')` entry per state `0, …, plen`. -/
def buildTable (seq : List Char) : List (Nat × Nat) :=
  (List.range (seq.length + 1)).map (fun st => (nxt seq st '0', nxt seq st '1'))

/-- Embedding of `build_transitions(pattern, allow_overlap)` (lines 3–27
of `main.py`): strip the pattern, build the table, and for the
non-overlapping policy overwrite the accept state's entry with state 0's
entry. -/
def build_transitions (pattern : List Char) (allow_overlap : Bool) :
    List (Nat × Nat) × Nat :=
  let seq := pyStrip pattern
  let plen := seq.length
  let transitions := buildTable seq
  if allow_overlap = false ∧ 1 ≤ plen then
    (transitions.set plen (transitions.getD 0 (0, 0)), plen)
  else
    (transitions, plen)

/-- Embedding of the Python dictionary lookup `t[st][bit]` in `step`
(line 53 of `main.py`): `none` models a `KeyError`.  The inner dictionary
has exactly the keys `'0'` and `'1'`, and `step` only reaches the lookup
with `bit` one of those two, so the pair component is selected by the
bit. -/
def entry (tbl : List (Nat × Nat)) (st : Nat) (bit : Char) : Option Nat :=
  (tbl[st]?).map (fun e => if bit = '0' then e.1 else e.2)

/-- A detector session: the fields of `StreamMultiDetector`
(lines 35–45 of `main.py`). -/
structure Session where
  patterns : List (List Char)
  allow_overlap : Bool
  tables : List (List (Nat × Nat))
  plens : List Nat
  states : List Nat
  counts : List Nat
deriving Repr, DecidableEq

/-- Embedding of `StreamMultiDetector.__init__` (lines 35–45 of
`main.py`): build one automaton per pattern, in order; all states and
counts start at 0. -/
def mkDetector (patterns : List (List Char)) (allow_overlap : Bool) : Session :=
  { patterns := patterns
    allow_overlap := allow_overlap
    tables := patterns.map (fun p => (build_transitions p allow_overlap).1)
    plens := patterns.map (fun p => (build_transitions p allow_overlap).2)
    states := List.replicate patterns.length 0
    counts := List.replicate patterns.length 0 }

/-- Is the character one of the two alphabet symbols (the check
`bit not in ('0','1')` at line 48 of `main.py`)? -/
def bitOk (b : Char) : Bool := b = '0' || b = '1'

/-- The per-pattern loop of `step` (lines 50–56 of `main.py`), walking the
four parallel lists (table, accept length, state, count) in step.  The
construction invariant of `StreamMultiDetector.__init__` makes the five
parallel lists share their length, so the indexed Python loop
`for i in range(len(self.patterns))` visits exactly these positions;
`none` models an out-of-range index or a failed dictionary lookup. -/
def stepLists (bit : Char) :
    List (List (Nat × Nat)) → List Nat → List Nat → List Nat →
    Option (List Nat × List Nat)
  | [], [], [], [] => some ([], [])
  | tbl :: ts, L :: Ls, st :: ss, c :: cs =>
    match entry tbl st bit with
    | none => none
    | some n =>
      (stepLists bit ts Ls ss cs).map
        (fun r => (n :: r.1, (if n = L then c + 1 else c) :: r.2))
  | _, _, _, _ => none

/-- Embedding of `StreamMultiDetector.step` (lines 47–56 of `main.py`):
reject a symbol outside the alphabet before touching any state (the
`ValueError`, here the tag `"invalid-bit"`), then advance every automaton
once and count accept-state arrivals.  In this functional embedding an
error returns no new session, so the caller's session value is exactly
the pre-call one — the mutation-free failure of the Python code. -/
def step (s : Session) (bit : Char) : Except String Session :=
  if bitOk bit then
    match stepLists bit s.tables s.plens s.states s.counts with
    | some r => .ok { s with states := r.1, counts := r.2 }
    | none => .error "key-error"
  else
    .error "invalid-bit"

/-- Embedding of `StreamMultiDetector.snapshot` (lines 58–60 of
`main.py`). -/
def snapshot (s : Session) : List Nat × List Nat := (s.counts, s.states)

/-- Feeding a list of bits one `step` at a time (the batch loop at
lines 130–131 of `main.py`); an error aborts, as the uncaught Python
exception would. -/
def runBits (s : Session) : List Char → Except String Session
  | [] => .ok s
  | b :: bs =>
    match step s b with
    | .ok s2 => runBits s2 bs
    | .error e => .error e

/-- Embedding of the `reset` command (lines 122–124 of `main.py`): the
session is replaced wholesale by a freshly constructed detector with the
same patterns and policy. -/
def resetSession (s : Session) : Session :=
  mkDetector s.patterns s.allow_overlap

/-- The validity test of the pattern prompt (line 69 of `main.py`): a
pattern line is accepted only if non-empty and made of `'0'`/`'1'`. -/
def validLine (l : List Char) : Bool :=
  (!l.isEmpty) && l.all (fun c => c = '0' || c = '1')

/-- Embedding of `prompt_patterns` (lines 62–76 of `main.py`) on a fixed
list of input lines: each line is stripped; an empty line ends the
collection; invalid lines are skipped with a message; valid lines are
collected in order.  (The `sys.exit` on an empty result is CLI behaviour
outside the collected list itself.) -/
def prompt_patterns : List (List Char) → List (List Char)
  | [] => []
  | l :: rest =>
    let line := pyStrip l
    if line = [] then []
    else if validLine line then line :: prompt_patterns rest
    else prompt_patterns rest

/-- Does the length-`k` suffix of `t` equal the length-`k` initial
segment of `pattern`?  (Spec side, for C1: "a suffix of `t` that is also
a prefix of the pattern".) -/
def isBorder (pattern t : List Char) (k : Nat) : Bool :=
  decide (k ≤ t.length) && decide (t.drop (t.length - k) = pattern.take k)

/-- Spec side, for C1: the length of the longest suffix of `t` that is
also an initial segment of `pattern`. -/
def matchLen (pattern t : List Char) : Nat :=
  Nat.findGreatest (fun k => isBorder pattern t k = true) t.length


/-! ### Helper lemmas -/

theorem dropWhile_eq_self_of_none (pr : Char → Bool) (l : List Char)
    (h : ∀ c ∈ l, pr c = false) : l.dropWhile pr = l := by
  cases l with
  | nil => rfl
  | cons a l =>
    rw [List.dropWhile_cons, if_neg]
    simp [h a (by simp)]

theorem pyStrip_of_no_ws (l : List Char) (h : ∀ c ∈ l, isPyWS c = false) :
    pyStrip l = l := by
  unfold pyStrip
  rw [dropWhile_eq_self_of_none _ _ h,
    dropWhile_eq_self_of_none _ _ (fun c hc => h c (List.mem_reverse.mp hc)),
    List.reverse_reverse]

theorem binary_no_ws (p : List Char) (hbin : ∀ c ∈ p, c = '0' ∨ c = '1') :
    ∀ c ∈ p, isPyWS c = false := by
  intro c hc
  rcases hbin c hc with h | h <;> simp [h, isPyWS]

theorem nxtLoop_le (seq temp : List Char) : ∀ k, nxtLoop seq temp k ≤ k := by
  intro k
  induction k with
  | zero => simp [nxtLoop]
  | succ k ih =>
    rw [nxtLoop]
    split
    · exact le_refl _
    · exact Nat.le_succ_of_le ih

theorem nxtLoop_eq_findGreatest (seq temp : List Char) (k : Nat) :
    nxtLoop seq temp k =
      Nat.findGreatest (fun m => temp.drop (temp.length - m) = seq.take m) k := by
  induction k with
  | zero => rfl
  | succ k ih =>
    rw [nxtLoop, Nat.findGreatest_succ]
    by_cases h : temp.drop (temp.length - (k + 1)) = seq.take (k + 1)
    · rw [if_pos h, if_pos h]
    · rw [if_neg h, if_neg h, ih]

theorem findGreatest_congr (P Q : Nat → Prop) [DecidablePred P] [DecidablePred Q]
    (n : Nat) (h : ∀ k, k ≤ n → (P k ↔ Q k)) :
    Nat.findGreatest P n = Nat.findGreatest Q n := by
  induction n with
  | zero => rfl
  | succ n ih =>
    rw [Nat.findGreatest_succ, Nat.findGreatest_succ,
      if_congr (h (n + 1) le_rfl) rfl (ih (fun k hk => h k (Nat.le_succ_of_le hk)))]

theorem nxt_eq_matchLen (seq : List Char) (s : Nat) (b : Char) :
    nxt seq s b = matchLen seq (seq.take s ++ [b]) := by
  unfold nxt matchLen
  set temp := seq.take s ++ [b] with htemp
  have htl : temp.length = min s seq.length + 1 := by
    simp [htemp]
  rw [nxtLoop_eq_findGreatest]
  rw [findGreatest_congr (fun k => isBorder seq temp k = true)
    (fun m => temp.drop (temp.length - m) = seq.take m) temp.length
    (fun k hk => by simp [isBorder, hk])]
  rcases Nat.lt_or_ge (min s seq.length) seq.length with h | h
  · have : min temp.length seq.length = temp.length := by omega
    rw [this]
  · have hmin : min s seq.length = seq.length := by
      have := Nat.min_le_right s seq.length
      omega
    have htl2 : temp.length = seq.length + 1 := by omega
    have hbound : min temp.length seq.length = seq.length := by omega
    rw [hbound, htl2, Nat.findGreatest_succ, if_neg]
    intro hq
    have hlen := congrArg List.length hq
    simp [htl2] at hlen

theorem buildTable_entry (seq : List Char) (st : Nat) (hst : st ≤ seq.length)
    (b : Char) :
    entry (buildTable seq) st b =
      some (if b = '0' then nxt seq st '0' else nxt seq st '1') := by
  unfold entry buildTable
  rw [List.getElem?_map, List.getElem?_range (by omega)]
  rfl

theorem build_overlap_eq_buildTable (p : List Char)
    (hbin : ∀ c ∈ p, c = '0' ∨ c = '1') :
    build_transitions p true = (buildTable p, p.length) := by
  unfold build_transitions
  rw [pyStrip_of_no_ws p (binary_no_ws p hbin)]
  simp

/-- C1: for every binary pattern, every state `s ≤ L` and every symbol
`b ∈ {0,1}`, the overlapping-policy table entry for `(s, b)` is the
length of the longest suffix of `pattern[0..s] ++ [b]` that is also an
initial segment of the pattern (`matchLen`), which is 0 when only the
empty segment matches. -/
theorem C1_overlap_transition_is_longest_border (p : List Char)
    (hbin : ∀ c ∈ p, c = '0' ∨ c = '1') (s : Nat) (hs : s ≤ p.length)
    (b : Char) (hb : b = '0' ∨ b = '1') :
    entry (build_transitions p true).1 s b =
      some (matchLen p (p.take s ++ [b])) := by
  rw [build_overlap_eq_buildTable p hbin]
  rw [buildTable_entry p s hs b]
  rcases hb with h | h <;>
    simp [h, nxt_eq_matchLen]

/-- Witness for C1 at the pattern `101`, state 2, symbol `'1'`: the
entry is 3, the full pattern length. -/
theorem C1_witness :
    entry (build_transitions ['1', '0', '1'] true).1 2 '1' =
      some (matchLen ['1', '0', '1'] (['1', '0', '1'].take 2 ++ ['1'])) :=
  C1_overlap_transition_is_longest_border ['1', '0', '1'] (by decide) 2
    (by decide) '1' (Or.inr rfl)

theorem buildTable_length (seq : List Char) :
    (buildTable seq).length = seq.length + 1 := by
  simp [buildTable]

theorem build_nonoverlap_eq (p : List Char)
    (hbin : ∀ c ∈ p, c = '0' ∨ c = '1') (hne : p ≠ []) :
    build_transitions p false =
      ((buildTable p).set p.length ((buildTable p).getD 0 (0, 0)), p.length) := by
  unfold build_transitions
  rw [pyStrip_of_no_ws p (binary_no_ws p hbin)]
  rw [if_pos ⟨rfl, List.length_pos.mpr hne⟩]

/-- C3: for every non-empty binary pattern, the non-overlapping table
has the same accept state `L`, agrees with the overlapping table on
every state below `L`, and its accept-state entry equals its own
state-0 entry. -/
theorem C3_nonoverlap_differs_only_at_accept (p : List Char)
    (hbin : ∀ c ∈ p, c = '0' ∨ c = '1') (hne : p ≠ []) :
    (build_transitions p false).2 = (build_transitions p true).2 ∧
    (∀ st, st < p.length →
      (build_transitions p false).1[st]? = (build_transitions p true).1[st]?) ∧
    (build_transitions p false).1[p.length]? =
      (build_transitions p false).1[0]? := by
  have hL : 1 ≤ p.length := List.length_pos.mpr hne
  rw [build_nonoverlap_eq p hbin hne, build_overlap_eq_buildTable p hbin]
  refine ⟨rfl, ?_, ?_⟩
  · intro st hst
    exact List.getElem?_set_ne (by omega)
  · rw [List.getElem?_set_self (by rw [buildTable_length]; omega),
      List.getElem?_set_ne (by omega)]
    rw [List.getD_eq_getElem?_getD]
    cases hzero : (buildTable p)[0]? with
    | none =>
      rw [List.getElem?_eq_none_iff] at hzero
      rw [buildTable_length] at hzero
      omega
    | some e => rfl

/-- Witness for C3 at the pattern `101`: the accept-state entry of the
non-overlapping table equals its state-0 entry, and state 1 agrees with
the overlapping table. -/
theorem C3_witness :
    (build_transitions ['1', '0', '1'] false).2 =
        (build_transitions ['1', '0', '1'] true).2 ∧
      (∀ st, st < 3 →
        (build_transitions ['1', '0', '1'] false).1[st]? =
          (build_transitions ['1', '0', '1'] true).1[st]?) ∧
      (build_transitions ['1', '0', '1'] false).1[3]? =
        (build_transitions ['1', '0', '1'] false).1[0]? := by
  have h := C3_nonoverlap_differs_only_at_accept ['1', '0', '1'] (by decide)
    (by decide)
  exact h

/-- Counterexample to C2: neither the builder nor the detector
constructor signals any error on an invalid pattern.  On the empty
pattern the builder returns the one-state table, and on the pattern
`102` (symbol `2` outside the alphabet) the constructor returns a
complete, fully initialised session — no exception path exists in
`build_transitions` or `StreamMultiDetector.__init__`
(lines 3–27 and 35–45 of `main.py`). -/
theorem C2_counterexample :
    build_transitions [] true = ([(0, 0)], 0) ∧
    mkDetector [['1', '0', '2']] true =
      { patterns := [['1', '0', '2']]
        allow_overlap := true
        tables := [[(0, 1), (2, 1), (0, 1), (0, 1)]]
        plens := [3]
        states := [0]
        counts := [0] } := by
  constructor <;> rfl

/-- C2 amended: the core accepts every pattern without error; the
rejection of empty or non-`{0,1}` patterns happens only in the CLI
prompt loop (`prompt_patterns`, lines 62–76 of `main.py`), so every
pattern it hands to the constructor is non-empty and binary. -/
theorem C2_amended_prompt_validates :
    ∀ (inputs : List (List Char)), ∀ p ∈ prompt_patterns inputs,
      p ≠ [] ∧ ∀ c ∈ p, c = '0' ∨ c = '1' := by
  intro inputs
  induction inputs with
  | nil =>
    intro p hp
    simp [prompt_patterns] at hp
  | cons l rest ih =>
    intro p hp
    simp only [prompt_patterns] at hp
    by_cases h1 : pyStrip l = []
    · simp [h1] at hp
    · by_cases h2 : validLine (pyStrip l) = true
      · rw [if_neg h1, if_pos h2] at hp
        rcases List.mem_cons.mp hp with rfl | hp
        ·
          refine ⟨h1, ?_⟩
          unfold validLine at h2
          simp only [Bool.and_eq_true, List.all_eq_true, Bool.or_eq_true,
            decide_eq_true_eq] at h2
          exact h2.2
        · exact ih p hp
      · rw [if_neg h1, if_neg h2] at hp
        exact ih p hp

/-- Witness for the amended C2: the input line `1` is collected by the
prompt and is indeed non-empty and binary. -/
theorem C2_witness :
    (['1'] : List Char) ∈ prompt_patterns [['1']] ∧
      ((['1'] : List Char) ≠ [] ∧ ∀ c ∈ ['1'], c = '0' ∨ c = '1') :=
  ⟨by decide, C2_amended_prompt_validates [['1']] ['1'] (by decide)⟩

theorem stepLists_ok_spec (bit : Char) :
    ∀ (tables : List (List (Nat × Nat))) (plens states counts ss cs : List Nat),
      stepLists bit tables plens states counts = some (ss, cs) →
      ss.length = tables.length ∧ cs.length = tables.length ∧
      ∀ (i : Nat) (tbl : List (Nat × Nat)), tables[i]? = some tbl →
        ∃ L st c n, plens[i]? = some L ∧ states[i]? = some st ∧
          counts[i]? = some c ∧ entry tbl st bit = some n ∧
          ss[i]? = some n ∧ cs[i]? = some (if n = L then c + 1 else c) := by
  intro tables
  induction tables with
  | nil =>
    intro plens states counts ss cs h
    cases plens <;> cases states <;> cases counts <;>
      simp [stepLists] at h
    obtain ⟨h1, h2⟩ := h
    subst h1; subst h2
    refine ⟨rfl, rfl, ?_⟩
    intro i tbl hi
    simp at hi
  | cons tbl ts ih =>
    intro plens states counts ss cs h
    cases plens with
    | nil => simp [stepLists] at h
    | cons L Ls =>
      cases states with
      | nil => simp [stepLists] at h
      | cons st sts =>
        cases counts with
        | nil => simp [stepLists] at h
        | cons c cs0 =>
          rw [stepLists] at h
          cases hE : entry tbl st bit with
          | none => rw [hE] at h; simp at h
          | some n =>
            rw [hE] at h
            rw [Option.map_eq_some'] at h
            obtain ⟨r, hr, hf⟩ := h
            have hss : ss = n :: r.1 := (congrArg Prod.fst hf).symm
            have hcs : cs = (if n = L then c + 1 else c) :: r.2 :=
              (congrArg Prod.snd hf).symm
            obtain ⟨l1, l2, l3⟩ := ih Ls sts cs0 r.1 r.2 (by rw [hr])
            subst hss
            subst hcs
            refine ⟨by simp [l1], by simp [l2], ?_⟩
            intro i tbl2 hi
            cases i with
            | zero =>
              simp only [List.getElem?_cons_zero, Option.some.injEq] at hi
              subst hi
              exact ⟨L, st, c, n, by simp, by simp, by simp, hE, by simp,
                by simp⟩
            | succ i =>
              simp only [List.getElem?_cons_succ] at hi ⊢
              exact l3 i tbl2 hi

/-- C4: whenever `step` succeeds, every automaton advances exactly once
(the new state and count lists are as long as the table list), the new
state of automaton `i` is its table entry at the old state for the fed
bit, and its count grows by exactly 1 exactly when the new state is the
accept state `L_i`. -/
theorem C4_step_advances_each_automaton (s : Session) (b : Char)
    (s2 : Session) (h : step s b = .ok s2) :
    s2.states.length = s.tables.length ∧
    s2.counts.length = s.tables.length ∧
    ∀ (i : Nat) (tbl : List (Nat × Nat)), s.tables[i]? = some tbl →
      ∃ L st c n, s.plens[i]? = some L ∧ s.states[i]? = some st ∧
        s.counts[i]? = some c ∧ entry tbl st b = some n ∧
        s2.states[i]? = some n ∧
        s2.counts[i]? = some (if n = L then c + 1 else c) := by
  unfold step at h
  by_cases hb : bitOk b = true
  · rw [if_pos hb] at h
    cases hsl : stepLists b s.tables s.plens s.states s.counts with
    | none => rw [hsl] at h; simp at h
    | some r =>
      rw [hsl] at h
      simp only [Except.ok.injEq] at h
      subst h
      exact stepLists_ok_spec b s.tables s.plens s.states s.counts r.1 r.2
        (by rw [hsl])
  · rw [if_neg hb] at h
    simp at h

/-- Witness for C4: stepping the fresh `101` detector with `'1'` moves
the single automaton from state 0 to state 1 without counting. -/
theorem C4_witness :
    ∃ s2, step (mkDetector [['1', '0', '1']] true) '1' = .ok s2 ∧
      (s2.states.length = (mkDetector [['1', '0', '1']] true).tables.length ∧
      s2.counts.length = (mkDetector [['1', '0', '1']] true).tables.length ∧
      ∀ (i : Nat) (tbl : List (Nat × Nat)),
        (mkDetector [['1', '0', '1']] true).tables[i]? = some tbl →
        ∃ L st c n,
          (mkDetector [['1', '0', '1']] true).plens[i]? = some L ∧
          (mkDetector [['1', '0', '1']] true).states[i]? = some st ∧
          (mkDetector [['1', '0', '1']] true).counts[i]? = some c ∧
          entry tbl st '1' = some n ∧
          s2.states[i]? = some n ∧
          s2.counts[i]? = some (if n = L then c + 1 else c)) :=
  ⟨{ patterns := [['1', '0', '1']]
     allow_overlap := true
     tables := [[(0, 1), (2, 1), (0, 3), (2, 1)]]
     plens := [3]
     states := [1]
     counts := [0] }, rfl,
   C4_step_advances_each_automaton (mkDetector [['1', '0', '1']] true) '1' _ rfl⟩

/-- C5: `step` signals the invalid-symbol error (the `ValueError` at
line 49 of `main.py`, tag `"invalid-bit"`) exactly when the fed symbol
is outside `{'0','1'}`, for every session.  The check precedes the
per-automaton loop, so nothing is touched on failure: in this functional
embedding a failed `step` returns no new session at all, and the
caller's session value — and hence its snapshot — is exactly the
pre-call one, still usable for later valid steps. -/
theorem C5_invalid_symbol_error_iff (s : Session) (b : Char) :
    step s b = .error "invalid-bit" ↔ ¬(b = '0' ∨ b = '1') := by
  unfold step
  by_cases hb : bitOk b = true
  · rw [if_pos hb]
    simp only [bitOk, Bool.or_eq_true, decide_eq_true_eq] at hb
    constructor
    · intro h
      cases hsl : stepLists b s.tables s.plens s.states s.counts with
      | none => rw [hsl] at h; simp at h
      | some r => rw [hsl] at h; simp at h
    · intro h
      exact absurd hb h
  · rw [if_neg hb]
    simp only [bitOk, Bool.or_eq_true, decide_eq_true_eq] at hb
    simp [hb]

theorem nxt_le (seq : List Char) (s : Nat) (b : Char) :
    nxt seq s b ≤ seq.length :=
  le_trans (nxtLoop_le seq _ _) (Nat.min_le_right _ _)

theorem buildTable_mem_le (seq : List Char) (e : Nat × Nat)
    (he : e ∈ buildTable seq) : e.1 ≤ seq.length ∧ e.2 ≤ seq.length := by
  unfold buildTable at he
  rw [List.mem_map] at he
  obtain ⟨st, _, rfl⟩ := he
  exact ⟨nxt_le seq st '0', nxt_le seq st '1'⟩

theorem build_transitions_len (p : List Char) (pol : Bool) :
    (build_transitions p pol).1.length = (build_transitions p pol).2 + 1 := by
  simp only [build_transitions]
  by_cases hc : pol = false ∧ 1 ≤ (pyStrip p).length
  · rw [if_pos hc]
    simp [buildTable_length]
  · rw [if_neg hc]
    simp [buildTable_length]

theorem build_transitions_mem_le (p : List Char) (pol : Bool) (e : Nat × Nat)
    (he : e ∈ (build_transitions p pol).1) :
    e.1 ≤ (build_transitions p pol).2 ∧ e.2 ≤ (build_transitions p pol).2 := by
  simp only [build_transitions] at he ⊢
  by_cases hc : pol = false ∧ 1 ≤ (pyStrip p).length
  · rw [if_pos hc] at he ⊢
    rcases List.mem_or_eq_of_mem_set he with h | h
    · exact buildTable_mem_le _ e h
    · subst h
      rw [List.getD_eq_getElem?_getD]
      cases h0 : (buildTable (pyStrip p))[0]? with
      | none => simp [Option.getD]
      | some e0 =>
        simp only [Option.getD_some]
        exact buildTable_mem_le _ e0 (List.getElem?_mem h0)
  · rw [if_neg hc] at he ⊢
    exact buildTable_mem_le _ e he

/-- Well-formedness of the four parallel mutable/immutable lists of a
session: each table has one entry per state `0, …, L`, every successor
lies in `{0, …, L}`, and the current state is in range. -/
def wfLists : List (List (Nat × Nat)) → List Nat → List Nat → List Nat → Bool
  | [], [], [], [] => true
  | tbl :: ts, L :: Ls, st :: ss, _ :: cs =>
    (tbl.length == L + 1) &&
      tbl.all (fun e => decide (e.1 ≤ L) && decide (e.2 ≤ L)) &&
      decide (st ≤ L) && wfLists ts Ls ss cs
  | _, _, _, _ => false

/-- Well-formed session: the invariant established by
`StreamMultiDetector.__init__` and maintained by `step`. -/
def wfS (s : Session) : Prop :=
  wfLists s.tables s.plens s.states s.counts = true

theorem wfLists_mk (pol : Bool) : ∀ (patterns : List (List Char)),
    wfLists (patterns.map (fun p => (build_transitions p pol).1))
      (patterns.map (fun p => (build_transitions p pol).2))
      (List.replicate patterns.length 0)
      (List.replicate patterns.length 0) = true := by
  intro patterns
  induction patterns with
  | nil => rfl
  | cons p ps ih =>
    simp only [List.map_cons, List.length_cons, List.replicate_succ, wfLists,
      Bool.and_eq_true, beq_iff_eq, List.all_eq_true, decide_eq_true_eq]
    refine ⟨⟨⟨build_transitions_len p pol, ?_⟩, by omega⟩, ih⟩
    intro e he
    have := build_transitions_mem_le p pol e he
    simp [this.1, this.2]

theorem mkDetector_wf (patterns : List (List Char)) (pol : Bool) :
    wfS (mkDetector patterns pol) :=
  wfLists_mk pol patterns

theorem stepLists_total (b : Char) :
    ∀ (tables : List (List (Nat × Nat))) (plens states counts : List Nat),
      wfLists tables plens states counts = true →
      ∃ ss cs, stepLists b tables plens states counts = some (ss, cs) ∧
        wfLists tables plens ss cs = true := by
  intro tables
  induction tables with
  | nil =>
    intro plens states counts hwf
    cases plens <;> cases states <;> cases counts <;> simp [wfLists] at hwf ⊢
    exact ⟨[], [], rfl, rfl⟩
  | cons tbl ts ih =>
    intro plens states counts hwf
    cases plens with
    | nil => simp [wfLists] at hwf
    | cons L Ls =>
      cases states with
      | nil => simp [wfLists] at hwf
      | cons st sts =>
        cases counts with
        | nil => simp [wfLists] at hwf
        | cons c cs0 =>
          simp only [wfLists, Bool.and_eq_true, beq_iff_eq, List.all_eq_true,
            decide_eq_true_eq] at hwf
          obtain ⟨⟨⟨hlen, hall⟩, hst⟩, hrest⟩ := hwf
          obtain ⟨ss2, cs2, h1, h2⟩ := ih Ls sts cs0 hrest
          have hidx : st < tbl.length := by omega
          have hget : tbl[st]? = some tbl[st] := List.getElem?_eq_getElem hidx
          have hmem := List.getElem_mem hidx
          obtain ⟨hb1, hb2⟩ := by
            have := hall tbl[st] hmem
            simp only [Bool.and_eq_true, decide_eq_true_eq] at this
            exact this
          refine ⟨(if b = '0' then tbl[st].1 else tbl[st].2) :: ss2,
            (if (if b = '0' then tbl[st].1 else tbl[st].2) = L then c + 1
              else c) :: cs2, ?_, ?_⟩
          · rw [stepLists]
            simp only [entry, hget, Option.map_some', h1, Option.map_some']
          · simp only [wfLists, Bool.and_eq_true, beq_iff_eq, List.all_eq_true,
              decide_eq_true_eq]
            refine ⟨⟨⟨hlen, ?_⟩, ?_⟩, h2⟩
            · intro e he
              have := hall e he
              simp only [Bool.and_eq_true, decide_eq_true_eq] at this
              simp [this.1, this.2]
            · split <;> assumption

/-- C6: for every pattern and policy the built table is total and
range-correct — one entry per state `0, …, L`, with every successor in
`{0, …, L}` for both symbols — and consequently a freshly constructed
detector is well formed, and on a well-formed session `step` with a
valid bit never fails and returns a session whose states are again all
in range (the lookup `t[st][bit]` never raises). -/
theorem C6_table_total_and_step_safe :
    (∀ (p : List Char) (pol : Bool),
      (build_transitions p pol).1.length = (build_transitions p pol).2 + 1 ∧
      ∀ (st : Nat), st ≤ (build_transitions p pol).2 → ∀ (b : Char),
        b = '0' ∨ b = '1' →
        ∃ n, entry (build_transitions p pol).1 st b = some n ∧
          n ≤ (build_transitions p pol).2) ∧
    (∀ (patterns : List (List Char)) (pol : Bool),
      wfS (mkDetector patterns pol)) ∧
    (∀ (s : Session) (b : Char), wfS s → bitOk b = true →
      ∃ s2, step s b = .ok s2 ∧ wfS s2) := by
  refine ⟨?_, mkDetector_wf, ?_⟩
  · intro p pol
    refine ⟨build_transitions_len p pol, ?_⟩
    intro st hst b _
    have hidx : st < (build_transitions p pol).1.length := by
      rw [build_transitions_len]; omega
    have hget : (build_transitions p pol).1[st]? =
        some (build_transitions p pol).1[st] := List.getElem?_eq_getElem hidx
    have hmem := List.getElem_mem hidx
    have hb := build_transitions_mem_le p pol _ hmem
    refine ⟨if b = '0' then (build_transitions p pol).1[st].1
      else (build_transitions p pol).1[st].2, ?_, ?_⟩
    · simp [entry, hget]
    · split
      · exact hb.1
      · exact hb.2
  · intro s b hwf hb
    obtain ⟨ss, cs, h1, h2⟩ := stepLists_total b s.tables s.plens s.states
      s.counts hwf
    refine ⟨{ s with states := ss, counts := cs }, ?_, h2⟩
    unfold step
    rw [if_pos hb, h1]

/-- Witness for C6: the accept state 3 of the `101` table has a
successor on `'0'`, and stepping the fresh well-formed `101` detector
with `'0'` succeeds and stays well formed. -/
theorem C6_witness :
    (∃ n, entry (build_transitions ['1', '0', '1'] true).1 3 '0' = some n ∧
      n ≤ (build_transitions ['1', '0', '1'] true).2) ∧
    (∃ s2, step (mkDetector [['1', '0', '1']] true) '0' = .ok s2 ∧
      wfS s2) :=
  ⟨(C6_table_total_and_step_safe.1 ['1', '0', '1'] true).2 3 (by decide) '0'
      (Or.inl rfl),
    C6_table_total_and_step_safe.2.2 (mkDetector [['1', '0', '1']] true) '0'
      (show wfLists _ _ _ _ = true by decide) (by decide)⟩

/-- C7: feeding `10101` to a fresh `101` detector gives running counts
`0, 0, 1, 1, 2` after each successive bit under the overlapping policy —
accept-state arrivals exactly at ending indices 2 and 4, final count 2 —
and final count 1 under the non-overlapping policy. -/
theorem C7_overlap_counts_on_10101 :
    (runBits (mkDetector [['1', '0', '1']] true) ['1']).map
        Session.counts = .ok [0] ∧
    (runBits (mkDetector [['1', '0', '1']] true) ['1', '0']).map
        Session.counts = .ok [0] ∧
    (runBits (mkDetector [['1', '0', '1']] true) ['1', '0', '1']).map
        Session.counts = .ok [1] ∧
    (runBits (mkDetector [['1', '0', '1']] true) ['1', '0', '1', '0']).map
        Session.counts = .ok [1] ∧
    (runBits (mkDetector [['1', '0', '1']] true) ['1', '0', '1', '0', '1']).map
        Session.counts = .ok [2] ∧
    (runBits (mkDetector [['1', '0', '1']] false) ['1', '0', '1', '0', '1']).map
        Session.counts = .ok [1] :=
  ⟨rfl, rfl, rfl, rfl, rfl, rfl⟩

theorem step_preserves_config (s : Session) (b : Char) (s2 : Session)
    (h : step s b = .ok s2) :
    s2.patterns = s.patterns ∧ s2.allow_overlap = s.allow_overlap := by
  unfold step at h
  by_cases hb : bitOk b = true
  · rw [if_pos hb] at h
    cases hsl : stepLists b s.tables s.plens s.states s.counts with
    | none => rw [hsl] at h; simp at h
    | some r =>
      rw [hsl] at h
      simp only [Except.ok.injEq] at h
      subst h
      exact ⟨rfl, rfl⟩
  · rw [if_neg hb] at h
    simp at h

theorem runBits_preserves_config :
    ∀ (bits : List Char) (s s2 : Session), runBits s bits = .ok s2 →
      s2.patterns = s.patterns ∧ s2.allow_overlap = s.allow_overlap := by
  intro bits
  induction bits with
  | nil =>
    intro s s2 h
    rw [runBits] at h
    simp only [Except.ok.injEq] at h
    subst h
    exact ⟨rfl, rfl⟩
  | cons b bs ih =>
    intro s s2 h
    rw [runBits] at h
    cases hstep : step s b with
    | error e => rw [hstep] at h; simp at h
    | ok s1 =>
      rw [hstep] at h
      have h1 := ih s1 s2 h
      have h2 := step_preserves_config s b s1 hstep
      exact ⟨h1.1.trans h2.1, h1.2.trans h2.2⟩

/-- C8: after any successful run of `step` calls from a fresh detector,
the `reset` command (reconstructing the detector from the session's own
patterns and policy) yields a snapshot of all-zero counts and all-zero
states, identical to the snapshot of a freshly constructed session with
the same configuration. -/
theorem C8_reset_equals_fresh (patterns : List (List Char)) (pol : Bool)
    (bits : List Char) (s2 : Session)
    (h : runBits (mkDetector patterns pol) bits = .ok s2) :
    snapshot (resetSession s2) =
      (List.replicate patterns.length 0, List.replicate patterns.length 0) ∧
    snapshot (resetSession s2) = snapshot (mkDetector patterns pol) := by
  have hc := runBits_preserves_config bits (mkDetector patterns pol) s2 h
  have hp : s2.patterns = patterns := hc.1
  have ho : s2.allow_overlap = pol := hc.2
  unfold resetSession
  rw [hp, ho]
  exact ⟨rfl, rfl⟩

/-- Witness for C8: run `101` through the `101` detector (one match),
then reset; the snapshot is all zeros, equal to a fresh session's. -/
theorem C8_witness :
    snapshot (resetSession
      { patterns := [['1', '0', '1']]
        allow_overlap := true
        tables := [[(0, 1), (2, 1), (0, 3), (2, 1)]]
        plens := [3]
        states := [3]
        counts := [1] }) =
      (List.replicate [['1', '0', '1']].length 0,
        List.replicate [['1', '0', '1']].length 0) ∧
    snapshot (resetSession
      { patterns := [['1', '0', '1']]
        allow_overlap := true
        tables := [[(0, 1), (2, 1), (0, 3), (2, 1)]]
        plens := [3]
        states := [3]
        counts := [1] }) =
      snapshot (mkDetector [['1', '0', '1']] true) :=
  C8_reset_equals_fresh [['1', '0', '1']] true ['1', '0', '1'] _ rfl

theorem dropWhile_idem (pr : Char → Bool) :
    ∀ l : List Char, (l.dropWhile pr).dropWhile pr = l.dropWhile pr := by
  intro l
  induction l with
  | nil => rfl
  | cons a l ih =>
    rw [List.dropWhile_cons]
    by_cases h : pr a = true
    · rw [if_pos h]
      exact ih
    · rw [if_neg h, List.dropWhile_cons, if_neg h]

theorem dropWhile_head_not (pr : Char → Bool) :
    ∀ l : List Char, l.dropWhile pr = [] ∨
      ∃ a t, l.dropWhile pr = a :: t ∧ pr a = false := by
  intro l
  induction l with
  | nil => exact Or.inl rfl
  | cons a l ih =>
    rw [List.dropWhile_cons]
    by_cases h : pr a = true
    · rw [if_pos h]
      exact ih
    · rw [if_neg h]
      exact Or.inr ⟨a, l, rfl, by simpa using h⟩

theorem dropWhile_isSuffix (pr : Char → Bool) :
    ∀ l : List Char, ∃ u, u ++ l.dropWhile pr = l := by
  intro l
  induction l with
  | nil => exact ⟨[], rfl⟩
  | cons a l ih =>
    rw [List.dropWhile_cons]
    by_cases h : pr a = true
    · rw [if_pos h]
      obtain ⟨u, hu⟩ := ih
      exact ⟨a :: u, by simp [hu]⟩
    · rw [if_neg h]
      exact ⟨[], rfl⟩

theorem pyStrip_idem (l : List Char) : pyStrip (pyStrip l) = pyStrip l := by
  unfold pyStrip
  set A := l.dropWhile isPyWS with hA
  set B := A.reverse.dropWhile isPyWS with hB
  have hfix : B.reverse.dropWhile isPyWS = B.reverse := by
    obtain ⟨u, hu⟩ := dropWhile_isSuffix isPyWS A.reverse
    rw [← hB] at hu
    cases hBr : B.reverse with
    | nil => simp
    | cons a t =>
      have hAeq : A = a :: (t ++ u.reverse) := by
        have : A = B.reverse ++ u.reverse := by
          rw [← List.reverse_append, hu, List.reverse_reverse]
        rw [this, hBr]
        simp
      have hpa : isPyWS a = false := by
        rcases dropWhile_head_not isPyWS l with h | ⟨a2, t2, h1, h2⟩
        · rw [← hA] at h
          rw [h] at hAeq
          exact absurd hAeq (by simp)
        · rw [← hA] at h1
          rw [h1] at hAeq
          have ha : a2 = a := (List.cons.inj hAeq).1
          rw [← ha]
          exact h2
      rw [List.dropWhile_cons, if_neg (by simp [hpa])]
  rw [hfix, List.reverse_reverse, hB, dropWhile_idem]

theorem dropWhile_eq_nil_of_all (pr : Char → Bool) :
    ∀ l : List Char, (∀ c ∈ l, pr c = true) → l.dropWhile pr = [] := by
  intro l
  induction l with
  | nil => intro _; rfl
  | cons a l ih =>
    intro h
    rw [List.dropWhile_cons, if_pos (by simp [h a (by simp)])]
    exact ih (fun c hc => h c (by simp [hc]))

theorem pyStrip_of_all_ws (l : List Char) (h : ∀ c ∈ l, isPyWS c = true) :
    pyStrip l = [] := by
  unfold pyStrip
  rw [dropWhile_eq_nil_of_all isPyWS l h]
  rfl

/-- C9: the builder strips surrounding whitespace itself
(`pattern.strip()` at line 5 of `main.py`), so it returns exactly the
same table and accept state for a pattern as for its stripped form, for
either policy; in particular a whitespace-only pattern is treated as the
empty pattern. -/
theorem C9_builder_strips_whitespace :
    (∀ (p : List Char) (pol : Bool),
      build_transitions p pol = build_transitions (pyStrip p) pol) ∧
    (∀ (p : List Char) (pol : Bool), (∀ c ∈ p, isPyWS c = true) →
      build_transitions p pol = build_transitions [] pol) := by
  constructor
  · intro p pol
    simp only [build_transitions, pyStrip_idem]
  · intro p pol h
    simp only [build_transitions, pyStrip_of_all_ws p h]
    rfl

/-- Witness for C9: the pattern `" 101 "` builds the same automaton as
`"101"`, and the whitespace-only pattern `" "` builds the same automaton
as the empty pattern. -/
theorem C9_witness :
    build_transitions [' ', '1', '0', '1', ' '] true =
      build_transitions (pyStrip [' ', '1', '0', '1', ' ']) true ∧
    build_transitions [' '] true = build_transitions [] true :=
  ⟨C9_builder_strips_whitespace.1 [' ', '1', '0', '1', ' '] true,
    C9_builder_strips_whitespace.2 [' '] true (by decide)⟩

theorem runEmpty (pol : Bool) : ∀ (bits : List Char) (c : Nat),
    (∀ b ∈ bits, bitOk b = true) →
    runBits
        { patterns := [[]], allow_overlap := pol, tables := [[(0, 0)]],
          plens := [0], states := [0], counts := [c] } bits =
      .ok
        { patterns := [[]], allow_overlap := pol, tables := [[(0, 0)]],
          plens := [0], states := [0], counts := [c + bits.length] } := by
  intro bits
  induction bits with
  | nil =>
    intro c _
    rw [runBits]
    simp
  | cons b bs ih =>
    intro c h
    rw [runBits]
    have hb : bitOk b = true := h b (by simp)
    have hstep : step
        { patterns := [[]], allow_overlap := pol, tables := [[(0, 0)]],
          plens := [0], states := [0], counts := [c] } b =
        .ok
          { patterns := [[]], allow_overlap := pol, tables := [[(0, 0)]],
            plens := [0], states := [0], counts := [c + 1] } := by
      unfold step
      rw [if_pos hb]
      have hentry : entry [((0 : Nat), (0 : Nat))] 0 b = some 0 := by
        simp [entry]
      rw [stepLists, hentry, stepLists]
      simp
    rw [hstep]
    have hvalid : ∀ b2 ∈ bs, bitOk b2 = true := fun b2 hb2 => h b2 (by simp [hb2])
    have harith : c + 1 + bs.length = c + (b :: bs).length := by
      simp
      omega
    exact (ih (c + 1) hvalid).trans (by rw [harith])

/-- C10: on the empty pattern the builder returns accept state 0 and the
single-state table sending both symbols back to state 0, under either
policy; a detector configured with the empty pattern therefore counts a
match on every valid step, ending with count equal to the number of bits
fed. -/
theorem C10_empty_pattern_counts_every_step :
    (∀ pol : Bool, build_transitions [] pol = ([(0, 0)], 0)) ∧
    (∀ (pol : Bool) (bits : List Char), (∀ b ∈ bits, bitOk b = true) →
      runBits (mkDetector [[]] pol) bits =
        .ok
          { patterns := [[]], allow_overlap := pol, tables := [[(0, 0)]],
            plens := [0], states := [0], counts := [bits.length] }) := by
  constructor
  · intro pol
    cases pol <;> rfl
  · intro pol bits h
    have hmk : mkDetector [[]] pol =
        { patterns := [[]], allow_overlap := pol, tables := [[(0, 0)]],
          plens := [0], states := [0], counts := [0] } := by
      cases pol <;> rfl
    rw [hmk, runEmpty pol bits 0 h]
    simp

/-- Witness for C10: feeding the two valid bits `01` to the
empty-pattern detector yields count 2. -/
theorem C10_witness :
    runBits (mkDetector [[]] true) ['0', '1'] =
      .ok
        { patterns := [[]], allow_overlap := true, tables := [[(0, 0)]],
          plens := [0], states := [0],
          counts := [(['0', '1'] : List Char).length] } :=
  C10_empty_pattern_counts_every_step.2 true ['0', '1'] (by decide)
